import Mathlib

/-!
Verification of the in-memory pub/sub broker (Go sources: `pubsub/models.go`,
the registry service, and the websocket verb dispatcher) against its
natural-language specification.

The Go code is shallowly embedded: pointers (`*Message`, `*Subscriber`) become
indices (`MsgRef`, `SubRef`) into explicit heaps carried in the service state,
Go maps become association lists, buffered channels become bounded FIFO lists
with a closed flag, and the goroutines that perform replay and fan-out are
sequentialised (each goroutine's effect is a pure function of the snapshot it
captures, so the sequentialisation is faithful per subscriber).
-/

namespace PlivoPubSub

/-! ### Generic list machinery (indexing, in-place update, association lists)

`lget` is positional read (Go slice/array read, `none` = out of range),
`listModify` is in-place update through a pointer-like index, and
`alookup`/`aset`/`aremove` model Go map read / assignment / delete on an
association list. -/

def lget {α : Type} : List α → Nat → Option α
  | [], _ => none
  | x :: _, 0 => some x
  | _ :: xs, Nat.succ i => lget xs i

def listModify {α : Type} : List α → Nat → (α → α) → List α
  | [], _, _ => []
  | x :: xs, 0, f => f x :: xs
  | x :: xs, Nat.succ i, f => x :: listModify xs i f

def alookup {α : Type} : List (String × α) → String → Option α
  | [], _ => none
  | (k, v) :: rest, key => if k = key then some v else alookup rest key

def aset {α : Type} : List (String × α) → String → α → List (String × α)
  | [], key, v => [(key, v)]
  | (k, v') :: rest, key, v =>
      if k = key then (key, v) :: rest else (k, v') :: aset rest key v

def aremove {α : Type} (l : List (String × α)) (key : String) : List (String × α) :=
  l.filter (fun p => p.1 ≠ key)

theorem lget_nil {α : Type} (i : Nat) : lget ([] : List α) i = none := by
  cases i <;> rfl

theorem lget_eq_some_of_lt {α : Type} :
    ∀ (l : List α) (i : Nat), i < l.length → ∃ a, lget l i = some a := by
  intro l
  induction l with
  | nil => intro i h; simp at h
  | cons x xs ih =>
    intro i h
    cases i with
    | zero => exact ⟨x, rfl⟩
    | succ j => exact ih j (by simpa using h)

theorem lget_append_left {α : Type} :
    ∀ (l l2 : List α) (i : Nat), i < l.length → lget (l ++ l2) i = lget l i := by
  intro l
  induction l with
  | nil => intro l2 i h; simp at h
  | cons x xs ih =>
    intro l2 i h
    cases i with
    | zero => rfl
    | succ j => exact ih l2 j (by simpa using h)

theorem lget_append_length {α : Type} :
    ∀ (l : List α) (a : α) (l2 : List α), lget (l ++ a :: l2) l.length = some a := by
  intro l
  induction l with
  | nil => intro a l2; rfl
  | cons x xs ih => intro a l2; exact ih a l2

theorem lget_drop {α : Type} :
    ∀ (l : List α) (k i : Nat), lget (l.drop k) i = lget l (k + i) := by
  intro l
  induction l with
  | nil => intro k i; simp [lget_nil]
  | cons x xs ih =>
    intro k i
    cases k with
    | zero => simp
    | succ j =>
      have : Nat.succ j + i = Nat.succ (j + i) := by omega
      rw [this]
      exact ih j i

theorem drop_eq_cons_of_lget {α : Type} :
    ∀ (l : List α) (k : Nat) (a : α), lget l k = some a →
      l.drop k = a :: l.drop (k + 1) := by
  intro l
  induction l with
  | nil => intro k a h; rw [lget_nil] at h; exact absurd h (by simp)
  | cons x xs ih =>
    intro k a h
    cases k with
    | zero =>
      simp [lget] at h
      simp [h]
    | succ j =>
      have := ih j a h
      simpa using this

theorem lget_set_eq {α : Type} :
    ∀ (l : List α) (i : Nat) (v : α), i < l.length → lget (l.set i v) i = some v := by
  intro l
  induction l with
  | nil => intro i v h; simp at h
  | cons x xs ih =>
    intro i v h
    cases i with
    | zero => rfl
    | succ j => exact ih j v (by simpa using h)

theorem lget_set_ne {α : Type} :
    ∀ (l : List α) (i j : Nat) (v : α), i ≠ j → lget (l.set i v) j = lget l j := by
  intro l
  induction l with
  | nil => intro i j v _; rfl
  | cons x xs ih =>
    intro i j v hij
    cases i with
    | zero =>
      cases j with
      | zero => exact absurd rfl hij
      | succ j' => rfl
    | succ i' =>
      cases j with
      | zero => rfl
      | succ j' => exact ih i' j' v (by omega)

theorem length_listModify {α : Type} :
    ∀ (l : List α) (i : Nat) (f : α → α), (listModify l i f).length = l.length := by
  intro l
  induction l with
  | nil => intro i f; rfl
  | cons x xs ih =>
    intro i f
    cases i with
    | zero => rfl
    | succ j => simp [listModify, ih j f]

theorem lget_listModify_eq {α : Type} :
    ∀ (l : List α) (i : Nat) (f : α → α),
      lget (listModify l i f) i = (lget l i).map f := by
  intro l
  induction l with
  | nil => intro i f; cases i <;> rfl
  | cons x xs ih =>
    intro i f
    cases i with
    | zero => rfl
    | succ j => exact ih j f

theorem lget_listModify_ne {α : Type} :
    ∀ (l : List α) (i j : Nat) (f : α → α), i ≠ j →
      lget (listModify l i f) j = lget l j := by
  intro l
  induction l with
  | nil => intro i j f _; rfl
  | cons x xs ih =>
    intro i j f hij
    cases i with
    | zero =>
      cases j with
      | zero => exact absurd rfl hij
      | succ j' => rfl
    | succ i' =>
      cases j with
      | zero => rfl
      | succ j' => exact ih i' j' f (by omega)

theorem alookup_aset_eq {α : Type} :
    ∀ (l : List (String × α)) (k : String) (v : α), alookup (aset l k v) k = some v := by
  intro l
  induction l with
  | nil => intro k v; simp [aset, alookup]
  | cons p rest ih =>
    intro k v
    by_cases h : p.1 = k
    · simp [aset, h, alookup]
    · simp [aset, h, alookup, ih]

theorem alookup_aset_ne {α : Type} :
    ∀ (l : List (String × α)) (k k' : String) (v : α), k ≠ k' →
      alookup (aset l k v) k' = alookup l k' := by
  intro l
  induction l with
  | nil => intro k k' v h; simp [aset, alookup, h]
  | cons p rest ih =>
    intro k k' v h
    obtain ⟨a, b⟩ := p
    by_cases ha : a = k
    · subst ha
      simp [aset, alookup, h]
    · by_cases ha' : a = k'
      · subst ha'
        simp [aset, alookup, ha]
      · simp [aset, alookup, ha, ha', ih _ _ _ h]

theorem aset_of_not_mem {α : Type} :
    ∀ (l : List (String × α)) (k : String) (v : α), alookup l k = none →
      aset l k v = l ++ [(k, v)] := by
  intro l
  induction l with
  | nil => intro k v _; rfl
  | cons p rest ih =>
    intro k v h
    by_cases hp : p.1 = k
    · simp [alookup, hp] at h
    · simp [aset, hp, ih _ _ (by simpa [alookup, hp] using h)]

theorem mem_aset {α : Type} :
    ∀ (l : List (String × α)) (k : String) (v : α) (p : String × α),
      p ∈ aset l k v → p ∈ l ∨ p = (k, v) := by
  intro l
  induction l with
  | nil => intro k v p hp; simp [aset] at hp; exact Or.inr hp
  | cons q rest ih =>
    intro k v p hp
    by_cases hq : q.1 = k
    · simp [aset, hq] at hp
      rcases hp with h | h
      · exact Or.inr h
      · exact Or.inl (List.mem_cons_of_mem _ h)
    · simp [aset, hq] at hp
      rcases hp with h | h
      · exact Or.inl (by simp [h])
      · rcases ih k v p h with h' | h'
        · exact Or.inl (List.mem_cons_of_mem _ h')
        · exact Or.inr h'

theorem mem_aremove {α : Type} (l : List (String × α)) (k : String) (p : String × α)
    (hp : p ∈ aremove l k) : p ∈ l ∧ p.1 ≠ k := by
  have := List.mem_filter.mp hp
  exact ⟨this.1, by simpa using this.2⟩

theorem alookup_eq_none_iff_keys {α : Type} :
    ∀ (l : List (String × α)) (k : String),
      alookup l k = none ↔ k ∉ l.map Prod.fst := by
  intro l
  induction l with
  | nil => intro k; simp [alookup]
  | cons p rest ih =>
    intro k
    obtain ⟨a, b⟩ := p
    by_cases ha : a = k
    · subst ha
      simp [alookup]
    · have hstep : alookup ((a, b) :: rest) k = alookup rest k := by simp [alookup, ha]
      rw [hstep, ih k]
      simp only [List.map_cons, List.mem_cons, not_or]
      constructor
      · intro h
        exact ⟨fun hk => ha hk.symm, h⟩
      · intro h
        exact h.2

theorem alookup_some_mem {α : Type} :
    ∀ (l : List (String × α)) (k : String) (v : α),
      alookup l k = some v → (k, v) ∈ l := by
  intro l
  induction l with
  | nil => intro k v h; simp [alookup] at h
  | cons p rest ih =>
    intro k v h
    obtain ⟨a, b⟩ := p
    by_cases ha : a = k
    · subst ha
      simp [alookup] at h
      subst h
      exact List.mem_cons_self _ _
    · simp [alookup, ha] at h
      exact List.mem_cons_of_mem _ (ih k v h)

theorem keys_aremove_sublist {α : Type} (l : List (String × α)) (k : String) :
    ((aremove l k).map Prod.fst).Sublist (l.map Prod.fst) :=
  (List.filter_sublist l).map Prod.fst

theorem snds_aremove_sublist {α : Type} (l : List (String × α)) (k : String) :
    ((aremove l k).map Prod.snd).Sublist (l.map Prod.snd) :=
  (List.filter_sublist l).map Prod.snd

/-! ### Folding an in-place update over a list of references

Both the publish fan-out and the delete-topic queue-closing walk the topic's
subscriber map and apply the same per-subscriber update through its reference.
These lemmas give the pointwise effect of such a fold on the heap. -/

theorem length_foldl_modify {α : Type} (f : α → α) :
    ∀ (subs : List (String × Nat)) (h : List α),
      (subs.foldl (fun acc p => listModify acc p.2 f) h).length = h.length := by
  intro subs
  induction subs with
  | nil => intro h; rfl
  | cons q rest ih =>
    intro h
    simp only [List.foldl_cons]
    rw [ih (listModify h q.2 f), length_listModify]

theorem lget_foldl_modify_not_mem {α : Type} (f : α → α) :
    ∀ (subs : List (String × Nat)) (h : List α) (r : Nat),
      r ∉ subs.map Prod.snd →
      lget (subs.foldl (fun acc p => listModify acc p.2 f) h) r = lget h r := by
  intro subs
  induction subs with
  | nil => intro h r _; rfl
  | cons q rest ih =>
    intro h r hr
    simp only [List.map_cons, List.mem_cons, not_or] at hr
    simp only [List.foldl_cons]
    rw [ih (listModify h q.2 f) r hr.2, lget_listModify_ne _ _ _ _ (fun hq => hr.1 hq.symm)]

theorem lget_foldl_modify_nodup {α : Type} (f : α → α) :
    ∀ (subs : List (String × Nat)) (h : List α) (r : Nat),
      (subs.map Prod.snd).Nodup → r ∈ subs.map Prod.snd →
      lget (subs.foldl (fun acc p => listModify acc p.2 f) h) r = (lget h r).map f := by
  intro subs
  induction subs with
  | nil => intro h r _ hr; simp at hr
  | cons q rest ih =>
    intro h r hnd hr
    simp only [List.map_cons, List.nodup_cons] at hnd
    simp only [List.map_cons, List.mem_cons] at hr
    simp only [List.foldl_cons]
    rcases hr with hr | hr
    · subst hr
      rw [lget_foldl_modify_not_mem f rest _ _ hnd.1, lget_listModify_eq]
    · have hne : q.2 ≠ r := fun hq => hnd.1 (hq ▸ hr)
      rw [ih (listModify h q.2 f) r hnd.2 hr, lget_listModify_ne _ _ _ _ hne]

theorem lget_foldl_modify_idem {α : Type} (f : α → α) (hidem : ∀ x, f (f x) = f x) :
    ∀ (subs : List (String × Nat)) (h : List α) (r : Nat),
      r ∈ subs.map Prod.snd →
      lget (subs.foldl (fun acc p => listModify acc p.2 f) h) r = (lget h r).map f := by
  intro subs
  induction subs with
  | nil => intro h r hr; simp at hr
  | cons q rest ih =>
    intro h r hr
    simp only [List.map_cons, List.mem_cons] at hr
    simp only [List.foldl_cons]
    by_cases hmem : r ∈ rest.map Prod.snd
    · rw [ih (listModify h q.2 f) r hmem]
      by_cases hq : q.2 = r
      · subst hq
        rw [lget_listModify_eq, Option.map_map]
        cases lget h q.2 with
        | none => rfl
        | some a => simp [hidem a]
      · rw [lget_listModify_ne _ _ _ _ hq]
    · have hq : q.2 = r := by
        rcases hr with hr | hr
        · exact hr.symm
        · exact absurd hr hmem
      subst hq
      rw [lget_foldl_modify_not_mem f rest _ _ hmem, lget_listModify_eq]

theorem lget_foldl_modify_pres {α : Type} {f : α → α} {Q : α → Prop}
    (hf : ∀ x, Q x → Q (f x)) :
    ∀ (subs : List (String × Nat)) (h : List α) (r : Nat),
      (∀ a, lget h r = some a → Q a) →
      ∀ a, lget (subs.foldl (fun acc p => listModify acc p.2 f) h) r = some a → Q a := by
  intro subs
  induction subs with
  | nil => intro h r hq a ha; exact hq a ha
  | cons q rest ih =>
    intro h r hq a ha
    simp only [List.foldl_cons] at ha
    refine ih (listModify h q.2 f) r ?_ a ha
    intro b hb
    by_cases hqr : q.2 = r
    · subst hqr
      rw [lget_listModify_eq] at hb
      cases hh : lget h q.2 with
      | none => rw [hh] at hb; exact absurd hb (by simp)
      | some c =>
        rw [hh] at hb
        simp at hb
        exact hb ▸ hf c (hq c hh)
    · rw [lget_listModify_ne _ _ _ _ hqr] at hb
      exact hq b hb

/-! ### The replay ring (`RingBuffer` in `pubsub/models.go`)

Faithful translation: `buffer` is the fixed-size slice of nilable message
references, `head`/`tail`/`count` the Go fields, index arithmetic is modular.
Go's `(x - i + size) % size` on non-negative ints equals the Nat expression
`(x + size - i) % size` used here, because `i ≤ size` at every use site. -/

structure RingBuffer (α : Type) where
  buffer : List (Option α)
  size : Nat
  head : Nat
  tail : Nat
  count : Nat
deriving Repr, DecidableEq

def NewRingBuffer (α : Type) (size : Nat) : RingBuffer α :=
  { buffer := List.replicate size none, size := size, head := 0, tail := 0, count := 0 }

/-- Read of `rb.buffer[i]` (in range at every reachable call site). -/
def RingBuffer.readSlot {α : Type} (rb : RingBuffer α) (i : Nat) : Option α :=
  (lget rb.buffer i).getD none

def RingBuffer.Add {α : Type} (rb : RingBuffer α) (msg : α) : RingBuffer α :=
  let buffer2 := rb.buffer.set rb.tail (some msg)
  let tail2 := (rb.tail + 1) % rb.size
  if rb.count < rb.size then
    { rb with buffer := buffer2, tail := tail2, count := rb.count + 1 }
  else
    { rb with buffer := buffer2, tail := tail2, head := (rb.head + 1) % rb.size }

/-- Go: clamp `n` to `rb.count` (reached with `n > 0`), set
`start := (tail - 1 + size) % size`, walk `i = 0 .. n-1` reading
`buffer[(start - i + size) % size]`, keep non-nil entries, then reverse.
`min n.toNat rb.count` is the clamped `n`; non-nil entries are the
`filterMap` hits. -/
def RingBuffer.GetLastN {α : Type} (rb : RingBuffer α) (n : Int) : List α :=
  if n ≤ 0 ∨ rb.count = 0 then []
  else
    ((List.range (min n.toNat rb.count)).filterMap fun i =>
      rb.readSlot (((rb.tail + rb.size - 1) % rb.size + rb.size - i) % rb.size)).reverse

def RingBuffer.Count {α : Type} (rb : RingBuffer α) : Nat := rb.count

def addAll {α : Type} (rb : RingBuffer α) (msgs : List α) : RingBuffer α :=
  msgs.foldl RingBuffer.Add rb

/-! ### Ring abstraction

`RingInv rb l` states that the ring `rb` currently holds exactly the
chronological message list `l`: `l` sits in the window of `count` slots
starting at `head`, and the bookkeeping fields are consistent. -/

def RingInv {α : Type} (rb : RingBuffer α) (l : List α) : Prop :=
  1 ≤ rb.size ∧ rb.buffer.length = rb.size ∧ rb.count = l.length ∧
  l.length ≤ rb.size ∧ rb.head < rb.size ∧ rb.tail = (rb.head + l.length) % rb.size ∧
  ∀ i, i < l.length → rb.readSlot ((rb.head + i) % rb.size) = lget l i

/-- The abstract effect of one `Add`: append, dropping the oldest when full. -/
def pushCap {α : Type} (C : Nat) (l : List α) (m : α) : List α :=
  if l.length < C then l ++ [m] else l.drop 1 ++ [m]

instance {α : Type} [DecidableEq α] (rb : RingBuffer α) (l : List α) :
    Decidable (RingInv rb l) := by
  unfold RingInv
  infer_instance

theorem ringInv_new {α : Type} (C : Nat) (hC : 1 ≤ C) :
    RingInv (NewRingBuffer α C) [] := by
  refine ⟨hC, by simp [NewRingBuffer], rfl, by simp, hC, by simp [NewRingBuffer], ?_⟩
  intro i hi
  simp at hi

theorem add_mod_ne {C : Nat} (hC : 1 ≤ C) (h : Nat) {i j : Nat}
    (hi : i < C) (hj : j < C) (hij : i ≠ j) : (h + i) % C ≠ (h + j) % C := by
  intro heq
  have heq2 : h + i ≡ h + j [MOD C] := heq
  have hmod : i ≡ j [MOD C] := Nat.ModEq.add_left_cancel' h heq2
  have : i % C = j % C := hmod
  rw [Nat.mod_eq_of_lt hi, Nat.mod_eq_of_lt hj] at this
  exact hij this

theorem size_add {α : Type} (rb : RingBuffer α) (m : α) : (rb.Add m).size = rb.size := by
  simp only [RingBuffer.Add]
  split <;> rfl

theorem count_add {α : Type} (rb : RingBuffer α) (m : α) :
    (rb.Add m).count = if rb.count < rb.size then rb.count + 1 else rb.count := by
  simp only [RingBuffer.Add]
  split <;> rfl

theorem ringInv_add {α : Type} (rb : RingBuffer α) (l : List α) (m : α)
    (hinv : RingInv rb l) : RingInv (rb.Add m) (pushCap rb.size l m) := by
  obtain ⟨hC, hlen, hcnt, hle, hhead, htail, hwin⟩ := hinv
  by_cases hfull : l.length < rb.size
  · -- not yet full: count increments, head stays
    have hbranch : rb.count < rb.size := by rw [hcnt]; exact hfull
    have hAdd : rb.Add m =
        ⟨rb.buffer.set rb.tail (some m), rb.size, rb.head, (rb.tail + 1) % rb.size,
          rb.count + 1⟩ := by
      simp only [RingBuffer.Add]
      rw [if_pos hbranch]
    have hpush : pushCap rb.size l m = l ++ [m] := by
      rw [pushCap, if_pos hfull]
    rw [hAdd, hpush]
    refine ⟨hC, by simpa using hlen, by simp [hcnt], by simp; omega, hhead, ?_, ?_⟩
    · show (rb.tail + 1) % rb.size = (rb.head + (l ++ [m]).length) % rb.size
      simp only [List.length_append, List.length_cons, List.length_nil]
      rw [htail, Nat.mod_add_mod]
      congr 1 <;> omega
    · intro i hi
      simp only [List.length_append, List.length_cons, List.length_nil] at hi
      show ((lget (rb.buffer.set rb.tail (some m)) ((rb.head + i) % rb.size)).getD none)
          = lget (l ++ [m]) i
      by_cases hi2 : i < l.length
      · have hne : (rb.head + i) % rb.size ≠ (rb.head + l.length) % rb.size :=
          add_mod_ne hC rb.head (by omega) hfull (by omega)
        rw [htail] at *
        rw [lget_set_ne _ _ _ _ (fun he => hne he.symm)]
        rw [lget_append_left _ _ _ hi2]
        exact hwin i hi2
      · have hieq : i = l.length := by omega
        subst hieq
        have htlt : rb.tail < rb.buffer.length := by
          rw [hlen, htail]
          exact Nat.mod_lt _ (by omega)
        rw [htail]
        rw [lget_set_eq _ _ _ (by rw [← htail]; exact htlt)]
        have : lget (l ++ [m]) l.length = some m := by
          have := lget_append_length l m []
          simpa using this
        rw [this]
        rfl
  · -- full: oldest is dropped, head advances
    have hlenC : l.length = rb.size := by omega
    have hbranch : ¬ rb.count < rb.size := by rw [hcnt]; exact hfull
    have hAdd : rb.Add m =
        ⟨rb.buffer.set rb.tail (some m), rb.size, (rb.head + 1) % rb.size,
          (rb.tail + 1) % rb.size, rb.count⟩ := by
      simp only [RingBuffer.Add]
      rw [if_neg hbranch]
    have hpush : pushCap rb.size l m = l.drop 1 ++ [m] := by
      rw [pushCap, if_neg hfull]
    have htaileq : rb.tail = rb.head := by
      rw [htail, hlenC, Nat.add_mod_right, Nat.mod_eq_of_lt hhead]
    have hdlen : (l.drop 1 ++ [m]).length = rb.size := by
      simp
      omega
    rw [hAdd, hpush]
    refine ⟨hC, by simpa using hlen, by simp [hcnt]; omega, by rw [hdlen], Nat.mod_lt _ (by omega), ?_, ?_⟩
    · show (rb.tail + 1) % rb.size = ((rb.head + 1) % rb.size + (l.drop 1 ++ [m]).length) % rb.size
      rw [hdlen, htaileq, Nat.mod_add_mod, Nat.add_mod_right]
    · intro i hi
      rw [hdlen] at hi
      show ((lget (rb.buffer.set rb.tail (some m)) (((rb.head + 1) % rb.size + i) % rb.size)).getD none)
          = lget (l.drop 1 ++ [m]) i
      rw [Nat.mod_add_mod]
      by_cases hi2 : i < rb.size - 1
      · have hidx : rb.head + 1 + i = rb.head + (i + 1) := by omega
        rw [hidx]
        have hne : (rb.head + (i + 1)) % rb.size ≠ (rb.head + 0) % rb.size :=
          add_mod_ne hC rb.head (by omega) (by omega) (by omega)
        have hne2 : rb.tail ≠ (rb.head + (i + 1)) % rb.size := by
          rw [htaileq]
          intro he
          apply hne
          rw [← he]
          simp [Nat.mod_eq_of_lt hhead]
        rw [lget_set_ne _ _ _ _ hne2]
        have hw := hwin (i + 1) (by omega)
        rw [RingBuffer.readSlot] at hw
        rw [hw]
        rw [lget_append_left _ _ _ (by simp; omega)]
        rw [lget_drop]
        congr 1
        omega
      · have hieq : i = rb.size - 1 := by omega
        subst hieq
        have hidx : (rb.head + 1 + (rb.size - 1)) % rb.size = rb.head := by
          have : rb.head + 1 + (rb.size - 1) = rb.head + rb.size := by omega
          rw [this, Nat.add_mod_right, Nat.mod_eq_of_lt hhead]
        rw [hidx, ← htaileq]
        rw [lget_set_eq _ _ _ (by rw [hlen, htaileq]; exact hhead)]
        have hlast : lget (l.drop 1 ++ [m]) (l.drop 1).length = some m := by
          have := lget_append_length (l.drop 1) m []
          simpa using this
        have hdl : (l.drop 1).length = rb.size - 1 := by simp; omega
        rw [hdl] at hlast
        rw [hlast]
        rfl

theorem ringInv_addAll_aux {α : Type} :
    ∀ (msgs : List α) (rb : RingBuffer α) (l : List α), RingInv rb l →
      RingInv (addAll rb msgs) (msgs.foldl (pushCap rb.size) l) := by
  intro msgs
  induction msgs with
  | nil => intro rb l h; exact h
  | cons x xs ih =>
    intro rb l h
    have h2 := ringInv_add rb l x h
    have h3 := ih (rb.Add x) (pushCap rb.size l x) h2
    rw [addAll, List.foldl_cons, List.foldl_cons]
    rw [addAll, size_add] at h3
    exact h3

theorem foldl_pushCap {α : Type} (C : Nat) (hC : 1 ≤ C) :
    ∀ (msgs acc : List α), acc.length ≤ C →
      msgs.foldl (pushCap C) acc = (acc ++ msgs).drop (acc.length + msgs.length - C) := by
  intro msgs
  induction msgs with
  | nil =>
    intro acc hacc
    simp only [List.foldl_nil, List.append_nil, List.length_nil, Nat.add_zero]
    have h0 : acc.length - C = 0 := by omega
    rw [h0, List.drop_zero]
  | cons x xs ih =>
    intro acc hacc
    rw [List.foldl_cons]
    by_cases hflt : acc.length < C
    · have hp : pushCap C acc x = acc ++ [x] := by rw [pushCap, if_pos hflt]
      rw [hp, ih (acc ++ [x]) (by simp; omega)]
      have e1 : (acc ++ [x]) ++ xs = acc ++ x :: xs := by simp
      have e2 : (acc ++ [x]).length + xs.length - C = acc.length + (x :: xs).length - C := by
        simp
        omega
      rw [e1, e2]
    · have hp : pushCap C acc x = acc.drop 1 ++ [x] := by rw [pushCap, if_neg hflt]
      have haccC : acc.length = C := by omega
      rw [hp, ih (acc.drop 1 ++ [x]) (by simp; omega)]
      have e1 : (acc.drop 1 ++ [x]) ++ xs = (acc ++ x :: xs).drop 1 := by
        rw [List.drop_append_of_le_length (by omega)]
        simp
      have e2 : (acc.drop 1 ++ [x]).length + xs.length - C = xs.length := by
        simp
        omega
      rw [e1, e2, List.drop_drop]
      congr 1
      simp
      omega

theorem ringInv_addAll {α : Type} (C : Nat) (hC : 1 ≤ C) (msgs : List α) :
    RingInv (addAll (NewRingBuffer α C) msgs) (msgs.drop (msgs.length - C)) := by
  have h1 := ringInv_addAll_aux msgs (NewRingBuffer α C) [] (ringInv_new C hC)
  have hsz : (NewRingBuffer α C).size = C := rfl
  have h2 := foldl_pushCap C hC msgs ([] : List α) (by simp)
  rw [hsz, h2] at h1
  simpa using h1

theorem count_addAll {α : Type} :
    ∀ (msgs : List α) (rb : RingBuffer α), rb.count ≤ rb.size →
      (addAll rb msgs).count = min (rb.count + msgs.length) rb.size := by
  intro msgs
  induction msgs with
  | nil =>
    intro rb h
    rw [addAll, List.foldl_nil, List.length_nil]
    omega
  | cons x xs ih =>
    intro rb h
    rw [addAll, List.foldl_cons]
    have hc := count_add rb x
    have hs := size_add rb x
    by_cases hlt : rb.count < rb.size
    · rw [if_pos hlt] at hc
      have h2 := ih (rb.Add x) (by rw [hc, hs]; omega)
      rw [addAll] at h2
      rw [h2, hc, hs, List.length_cons]
      omega
    · rw [if_neg hlt] at hc
      have h2 := ih (rb.Add x) (by rw [hc, hs]; omega)
      rw [addAll] at h2
      rw [h2, hc, hs, List.length_cons]
      omega

/-! ### Correctness of `GetLastN` against the abstraction -/

theorem ring_index_arith {S H L i : Nat} (hS : 1 ≤ S) (hL1 : 1 ≤ L)
    (hLS : L ≤ S) (hi : i < L) :
    (((H + L) % S + S - 1) % S + S - i) % S = (H + (L - 1 - i)) % S := by
  have e1 : (H + L) % S + S - 1 = (H + L) % S + (S - 1) := by omega
  have e2 : ((H + L) % S + (S - 1)) % S = (H + L + (S - 1)) % S := Nat.mod_add_mod _ _ _
  have e3 : (H + L + (S - 1)) % S + S - i = (H + L + (S - 1)) % S + (S - i) := by omega
  have e4 : ((H + L + (S - 1)) % S + (S - i)) % S = (H + L + (S - 1) + (S - i)) % S :=
    Nat.mod_add_mod _ _ _
  have e5 : H + L + (S - 1) + (S - i) = H + (L - 1 - i) + S * 2 := by omega
  rw [e1, e2, e3, e4, e5, Nat.add_mul_mod_self_left]

theorem revFilterMapRange {α : Type} (l : List α) (f : Nat → Option α) :
    ∀ (m : Nat), m ≤ l.length → (∀ i, i < m → f i = lget l (l.length - 1 - i)) →
      ((List.range m).filterMap f).reverse = l.drop (l.length - m) := by
  intro m
  induction m with
  | zero => intro _ _; simp [List.drop_length]
  | succ k ih =>
    intro hm hf
    have hk : k ≤ l.length := by omega
    have hfk : ∀ i, i < k → f i = lget l (l.length - 1 - i) := fun i hi => hf i (by omega)
    rw [List.range_succ, List.filterMap_append, List.reverse_append]
    obtain ⟨a, ha⟩ := lget_eq_some_of_lt l (l.length - 1 - k) (by omega)
    have hfk2 : f k = some a := by rw [hf k (by omega)]; exact ha
    have hsingle : List.filterMap f [k] = [a] := by
      simp [List.filterMap_cons, hfk2]
    rw [hsingle]
    simp only [List.reverse_cons, List.reverse_nil, List.nil_append, List.cons_append]
    rw [ih hk hfk]
    have hidx : l.length - 1 - k = l.length - (k + 1) := by omega
    rw [hidx] at ha
    have hcons := drop_eq_cons_of_lget l (l.length - (k + 1)) a ha
    have hstep : l.length - (k + 1) + 1 = l.length - k := by omega
    rw [hcons, hstep]

theorem ringInv_getLastN {α : Type} (rb : RingBuffer α) (l : List α)
    (hinv : RingInv rb l) (n : Int) :
    rb.GetLastN n = l.drop (l.length - min n.toNat l.length) := by
  obtain ⟨hC, hlen, hcnt, hle, hhead, htail, hwin⟩ := hinv
  rw [RingBuffer.GetLastN]
  by_cases hn : n ≤ 0 ∨ rb.count = 0
  · rw [if_pos hn]
    rcases hn with hn | hn
    · rw [Int.toNat_of_nonpos hn]
      simp
    · rw [hcnt] at hn
      rw [List.length_eq_zero.mp hn]
      simp
  · rw [if_neg hn]
    push_neg at hn
    have hL1 : 1 ≤ l.length := by
      rw [hcnt] at hn
      omega
    rw [hcnt]
    refine revFilterMapRange l _ (min n.toNat l.length) (min_le_right _ _) ?_
    intro i hi
    rw [RingBuffer.readSlot, htail,
      ring_index_arith hC hL1 hle (lt_of_lt_of_le hi (min_le_right _ _))]
    exact hwin (l.length - 1 - i) (by omega)

/-! ### Data model (`pubsub/models.go`)

`MsgRef`/`SubRef` play the role of the Go pointers `*Message`/`*Subscriber`:
they index the two heaps carried in `ServiceState`, so that sharing a message
between the ring, the subscriber queues and the caller is visible. A buffered
Go channel of capacity `ChannelBufferSize` is a FIFO list plus a closed flag
(`close(ch)` sets the flag; pending elements stay readable). -/

abbrev MsgRef := Nat
abbrev SubRef := Nat

structure Message where
  ID : String
  Payload : String
  Topic : String
  Timestamp : Nat
deriving Repr, DecidableEq, Inhabited

structure Subscriber where
  ClientID : String
  TopicName : String
  MessageChan : List MsgRef
  chanClosed : Bool
  LastSeen : Nat
deriving Repr, DecidableEq

structure Topic where
  Name : String
  Subscribers : List (String × SubRef)
  Messages : RingBuffer MsgRef
  CreatedAt : Nat
deriving Repr, DecidableEq

structure Config where
  RingBufferSize : Nat
  ChannelBufferSize : Nat
deriving Repr, DecidableEq

def DefaultRingBufferSize : Nat := 100
def DefaultChannelBufferSize : Nat := 100

def DefaultConfig : Config :=
  { RingBufferSize := DefaultRingBufferSize,
    ChannelBufferSize := DefaultChannelBufferSize }

structure TopicInfo where
  Name : String
  Subscribers : Nat
deriving Repr, DecidableEq

/-- The registry (`service` struct): topic map, config, and the two heaps
standing for the Go object graph reachable through pointers. -/
structure ServiceState where
  topics : List (String × Topic)
  config : Config
  msgHeap : List Message
  subHeap : List Subscriber
deriving Repr, DecidableEq

/-- `InitService`: empty topic map. -/
def initState (config : Config) : ServiceState :=
  { topics := [], config := config, msgHeap := [], subHeap := [] }

/-- The `fmt.Errorf` failures of the registry, by category. -/
inductive PubSubError where
  | topicExists (name : String)
  | topicNotFound (name : String)
  | alreadySubscribed (clientID topicName : String)
  | notSubscribed (clientID topicName : String)
deriving Repr, DecidableEq

/-- The Go error strings produced by `fmt.Errorf` in the registry. -/
def PubSubError.errString : PubSubError → String
  | .topicExists n => "topic " ++ n ++ " already exists"
  | .topicNotFound n => "topic " ++ n ++ " not found"
  | .alreadySubscribed c t => "client " ++ c ++ " already subscribed to topic " ++ t
  | .notSubscribed c t => "client " ++ c ++ " not subscribed to topic " ++ t

/-! ### Registry operations (`service` methods)

Each operation returns the new state paired with the Go return value; an
error always leaves the state unchanged, as in the source, where the error
paths return before any mutation. `now` stands for `time.Now()` and `fresh`
for `uuid.New().String()` at that call. -/

/-- `service.CreateTopic`. -/
def CreateTopic (s : ServiceState) (name : String) (now : Nat) :
    ServiceState × Option PubSubError :=
  match alookup s.topics name with
  | some _ => (s, some (.topicExists name))
  | none =>
    let topic : Topic :=
      { Name := name, Subscribers := [],
        Messages := NewRingBuffer MsgRef s.config.RingBufferSize, CreatedAt := now }
    ({ s with topics := aset s.topics name topic }, none)

/-- `close(subscriber.MessageChan)` for every subscriber of a deleted topic. -/
def closeAll (subHeap : List Subscriber) (subs : List (String × SubRef)) :
    List Subscriber :=
  subs.foldl (fun h p => listModify h p.2 (fun sub => { sub with chanClosed := true })) subHeap

/-- `service.DeleteTopic`: close every subscriber channel, drop the topic. -/
def DeleteTopic (s : ServiceState) (name : String) :
    ServiceState × Option PubSubError :=
  match alookup s.topics name with
  | none => (s, some (.topicNotFound name))
  | some topic =>
    ({ s with subHeap := closeAll s.subHeap topic.Subscribers,
              topics := aremove s.topics name }, none)

/-- `service.ListTopics`. -/
def ListTopics (s : ServiceState) : List TopicInfo :=
  s.topics.map (fun p => { Name := p.1, Subscribers := p.2.Subscribers.length })

/-- One non-blocking channel send with the drop-if-full backpressure policy
(the `select`/`default` in the replay goroutine). -/
def enqueueDropIfFull (B : Nat) (chan : List MsgRef) (mr : MsgRef) : List MsgRef :=
  if chan.length < B then chan ++ [mr] else chan

/-- `service.Subscribe`: reject on missing topic or duplicate clientID,
otherwise attach a fresh Subscriber and (when `lastN > 0`) replay the ring
tail into its channel with drop-if-full semantics. The replay goroutine is
sequentialised. -/
def Subscribe (s : ServiceState) (topicName clientID : String) (lastN : Int) (now : Nat) :
    ServiceState × Except PubSubError SubRef :=
  match alookup s.topics topicName with
  | none => (s, .error (.topicNotFound topicName))
  | some topic =>
    match alookup topic.Subscribers clientID with
    | some _ => (s, .error (.alreadySubscribed clientID topicName))
    | none =>
      let r : SubRef := s.subHeap.length
      let hist := if lastN > 0 then topic.Messages.GetLastN lastN else []
      let chan := hist.foldl (enqueueDropIfFull s.config.ChannelBufferSize) []
      let sub : Subscriber :=
        { ClientID := clientID, TopicName := topicName, MessageChan := chan,
          chanClosed := false, LastSeen := now }
      let topic2 := { topic with Subscribers := aset topic.Subscribers clientID r }
      ({ s with subHeap := s.subHeap ++ [sub],
                topics := aset s.topics topicName topic2 }, .ok r)

/-- `service.Unsubscribe`: close the channel and remove the map entry. -/
def Unsubscribe (s : ServiceState) (topicName clientID : String) :
    ServiceState × Option PubSubError :=
  match alookup s.topics topicName with
  | none => (s, some (.topicNotFound topicName))
  | some topic =>
    match alookup topic.Subscribers clientID with
    | none => (s, some (.notSubscribed clientID topicName))
    | some r =>
      ({ s with
          subHeap := listModify s.subHeap r (fun sub => { sub with chanClosed := true }),
          topics := aset s.topics topicName
            { topic with Subscribers := aremove topic.Subscribers clientID } }, none)

/-- The in-place stamping of the published message (`message.Topic = ...`,
`message.Timestamp = time.Now()`, UUID only when `ID` is empty). -/
def stampMessage (topicName : String) (now : Nat) (fresh : String) (m : Message) : Message :=
  { m with Topic := topicName, Timestamp := now,
           ID := if m.ID = "" then fresh else m.ID }

/-- One fan-out attempt: non-blocking send on the subscriber channel,
dropped when the buffer is full. -/
def tryEnqueue (B : Nat) (mr : MsgRef) (sub : Subscriber) : Subscriber :=
  if sub.MessageChan.length < B then { sub with MessageChan := sub.MessageChan ++ [mr] }
  else sub

/-- The per-subscriber fan-out goroutines of `Publish`, sequentialised: each
touches only its own subscriber, so the combined effect is this fold. -/
def fanOut (B : Nat) (mr : MsgRef) (subHeap : List Subscriber)
    (subs : List (String × SubRef)) : List Subscriber :=
  subs.foldl (fun h p => listModify h p.2 (tryEnqueue B mr)) subHeap

/-- `service.Publish`: fail fast on a missing topic; otherwise stamp the
message in place, append its reference to the ring, and fan out to every
subscriber in the map snapshot. -/
def Publish (s : ServiceState) (topicName : String) (mr : MsgRef) (now : Nat)
    (fresh : String) : ServiceState × Option PubSubError :=
  match alookup s.topics topicName with
  | none => (s, some (.topicNotFound topicName))
  | some topic =>
    ({ s with
        msgHeap := listModify s.msgHeap mr (stampMessage topicName now fresh),
        subHeap := fanOut s.config.ChannelBufferSize mr s.subHeap topic.Subscribers,
        topics := aset s.topics topicName
          { topic with Messages := topic.Messages.Add mr } }, none)

/-! ### WebSocket verb dispatcher (`services/gateway/websocket`)

Only the parts the claims are about: the response envelope fields the publish
verb writes, the error-code constants, and `handlePublish`. The decoded
`req.Message` pointer is a freshly allocated object, so the model appends the
decoded value to the message heap before calling the registry. -/

def ErrorCodeBadRequest : String := "BAD_REQUEST"
def ErrorCodeTopicNotFound : String := "TOPIC_NOT_FOUND"
def ErrorCodeSlowConsumer : String := "SLOW_CONSUMER"
def ErrorCodeUnauthorized : String := "UNAUTHORIZED"
def ErrorCodeInternal : String := "INTERNAL"

def WSResponseTypeAck : String := "ack"
def WSResponseTypeEvent : String := "event"
def WSResponseTypeError : String := "error"
def WSResponseTypePong : String := "pong"

structure WSError where
  Code : String
  Message : String
deriving Repr, DecidableEq

structure WSResponse where
  RespType : String  -- Go field `Type` (a reserved word in Lean)
  Topic : String
  Status : String
  Error : Option WSError
deriving Repr, DecidableEq

/-- `WebSocketHandler.handlePublish`: validate topic / message / message.id,
then call `Registry.Publish` and translate its error string, acking on
success. -/
def handlePublish (s : ServiceState) (reqTopic : String) (reqMessage : Option Message)
    (now : Nat) (fresh : String) : WSResponse × ServiceState :=
  if reqTopic = "" ∨ reqMessage = none then
    ({ RespType := WSResponseTypeError, Topic := "", Status := "",
       Error := some { Code := ErrorCodeBadRequest,
                       Message := "topic and message are required for publish" } }, s)
  else
    let msg := reqMessage.getD default
    if msg.ID = "" then
      ({ RespType := WSResponseTypeError, Topic := "", Status := "",
         Error := some { Code := ErrorCodeBadRequest,
                         Message := "message.id is required" } }, s)
    else
      let mr : MsgRef := s.msgHeap.length
      let s1 : ServiceState := { s with msgHeap := s.msgHeap ++ [msg] }
      match Publish s1 reqTopic mr now fresh with
      | (s2, some e) =>
        if e.errString = "topic " ++ reqTopic ++ " not found" then
          ({ RespType := WSResponseTypeError, Topic := "", Status := "",
             Error := some { Code := ErrorCodeTopicNotFound, Message := e.errString } }, s2)
        else
          ({ RespType := WSResponseTypeError, Topic := "", Status := "",
             Error := some { Code := ErrorCodeInternal, Message := e.errString } }, s2)
      | (s2, none) =>
        ({ RespType := WSResponseTypeAck, Topic := reqTopic, Status := "ok",
           Error := none }, s2)

/-! ### Reachable registry states

One step per registry entry point (plus the allocation of a decoded message,
which is what the transport layer does before calling `Publish`). -/

inductive Step : ServiceState → ServiceState → Prop
  | create (s : ServiceState) (name : String) (now : Nat) :
      Step s (CreateTopic s name now).1
  | delete (s : ServiceState) (name : String) :
      Step s (DeleteTopic s name).1
  | subscribe (s : ServiceState) (topicName clientID : String) (lastN : Int) (now : Nat) :
      Step s (Subscribe s topicName clientID lastN now).1
  | unsubscribe (s : ServiceState) (topicName clientID : String) :
      Step s (Unsubscribe s topicName clientID).1
  | publish (s : ServiceState) (topicName : String) (mr : MsgRef) (now : Nat)
      (fresh : String) : Step s (Publish s topicName mr now fresh).1
  | allocMsg (s : ServiceState) (m : Message) :
      Step s { s with msgHeap := s.msgHeap ++ [m] }

def Reachable (cfg : Config) (s : ServiceState) : Prop :=
  Relation.ReflTransGen Step (initState cfg) s

/-- Structural well-formedness of one topic: clientIDs are pairwise distinct,
the subscriber references are pairwise distinct and live in the heap. -/
def TopicWF (nsubs : Nat) (t : Topic) : Prop :=
  (t.Subscribers.map Prod.fst).Nodup ∧
  (t.Subscribers.map Prod.snd).Nodup ∧
  ∀ p, p ∈ t.Subscribers → p.2 < nsubs

def Inv (s : ServiceState) : Prop :=
  ∀ q, q ∈ s.topics → TopicWF s.subHeap.length q.2

theorem nodup_append_singleton {α : Type} {xs : List α} {a : α}
    (h : xs.Nodup) (ha : a ∉ xs) : (xs ++ [a]).Nodup := by
  rw [List.nodup_append]
  refine ⟨h, List.nodup_singleton a, ?_⟩
  intro x hx hxa
  simp at hxa
  subst hxa
  exact ha hx

theorem topicWF_mono {n n' : Nat} (h : n ≤ n') (t : Topic) (hwf : TopicWF n t) :
    TopicWF n' t :=
  ⟨hwf.1, hwf.2.1, fun p hp => lt_of_lt_of_le (hwf.2.2 p hp) h⟩

theorem inv_init (cfg : Config) : Inv (initState cfg) := by
  intro q hq
  exact absurd hq (List.not_mem_nil q)

theorem inv_create (s : ServiceState) (name : String) (now : Nat) (hinv : Inv s) :
    Inv (CreateTopic s name now).1 := by
  cases ht : alookup s.topics name with
  | some t => rw [CreateTopic, ht]; exact hinv
  | none =>
    rw [CreateTopic, ht]
    intro q hq
    rcases mem_aset _ _ _ _ hq with h | h
    · exact hinv q h
    · subst h
      exact ⟨List.nodup_nil, List.nodup_nil, fun p hp => absurd hp (List.not_mem_nil p)⟩

theorem inv_delete (s : ServiceState) (name : String) (hinv : Inv s) :
    Inv (DeleteTopic s name).1 := by
  cases ht : alookup s.topics name with
  | none => rw [DeleteTopic, ht]; exact hinv
  | some topic =>
    rw [DeleteTopic, ht]
    intro q hq
    have hq2 := (mem_aremove _ _ _ hq).1
    have hlen : (closeAll s.subHeap topic.Subscribers).length = s.subHeap.length :=
      length_foldl_modify _ _ _
    show TopicWF (closeAll s.subHeap topic.Subscribers).length q.2
    rw [hlen]
    exact hinv q hq2

theorem inv_subscribe (s : ServiceState) (tn cid : String) (lastN : Int) (now : Nat)
    (hinv : Inv s) : Inv (Subscribe s tn cid lastN now).1 := by
  cases ht : alookup s.topics tn with
  | none => rw [Subscribe, ht]; exact hinv
  | some topic =>
    cases hc : alookup topic.Subscribers cid with
    | some r => simp only [Subscribe, ht, hc]; exact hinv
    | none =>
      simp only [Subscribe, ht, hc]
      intro q hq
      show TopicWF (s.subHeap ++ [_]).length q.2
      rw [List.length_append, List.length_cons, List.length_nil]
      rcases mem_aset _ _ _ _ hq with h | h
      · exact topicWF_mono (by omega) _ (hinv q h)
      · subst h
        obtain ⟨hnd1, hnd2, hbound⟩ := hinv (tn, topic) (alookup_some_mem _ _ _ ht)
        have hext : aset topic.Subscribers cid s.subHeap.length
            = topic.Subscribers ++ [(cid, s.subHeap.length)] := aset_of_not_mem _ _ _ hc
        show TopicWF _ { topic with
          Subscribers := aset topic.Subscribers cid s.subHeap.length }
        refine ⟨?_, ?_, ?_⟩
        · show ((aset topic.Subscribers cid s.subHeap.length).map Prod.fst).Nodup
          rw [hext, List.map_append]
          exact nodup_append_singleton hnd1
            ((alookup_eq_none_iff_keys _ _).mp hc)
        · show ((aset topic.Subscribers cid s.subHeap.length).map Prod.snd).Nodup
          rw [hext, List.map_append]
          refine nodup_append_singleton hnd2 ?_
          intro hmem
          obtain ⟨p, hp, hp2⟩ := List.mem_map.mp hmem
          have hlt := hbound p hp
          exact absurd hp2 (Nat.ne_of_lt hlt)
        · intro p hp
          show p.2 < s.subHeap.length + (0 + 1)
          rw [hext] at hp
          rcases List.mem_append.mp hp with h | h
          · have hlt := hbound p h
            exact Nat.lt_succ_of_lt hlt
          · simp at h
            subst h
            exact Nat.lt_succ_self _

theorem inv_unsubscribe (s : ServiceState) (tn cid : String) (hinv : Inv s) :
    Inv (Unsubscribe s tn cid).1 := by
  cases ht : alookup s.topics tn with
  | none => rw [Unsubscribe, ht]; exact hinv
  | some topic =>
    cases hc : alookup topic.Subscribers cid with
    | none => simp only [Unsubscribe, ht, hc]; exact hinv
    | some r =>
      simp only [Unsubscribe, ht, hc]
      intro q hq
      show TopicWF (listModify s.subHeap r _).length q.2
      rw [length_listModify]
      rcases mem_aset _ _ _ _ hq with h | h
      · exact hinv q h
      · subst h
        obtain ⟨h1, h2, h3⟩ := hinv (tn, topic) (alookup_some_mem _ _ _ ht)
        refine ⟨?_, ?_, ?_⟩
        · exact List.Nodup.sublist (keys_aremove_sublist _ _) h1
        · exact List.Nodup.sublist (snds_aremove_sublist _ _) h2
        · intro p hp
          exact h3 p (mem_aremove _ _ _ hp).1

theorem inv_publish (s : ServiceState) (tn : String) (mr : MsgRef) (now : Nat)
    (fresh : String) (hinv : Inv s) : Inv (Publish s tn mr now fresh).1 := by
  cases ht : alookup s.topics tn with
  | none => rw [Publish, ht]; exact hinv
  | some topic =>
    rw [Publish, ht]
    intro q hq
    show TopicWF (fanOut s.config.ChannelBufferSize mr s.subHeap topic.Subscribers).length q.2
    have hlen : (fanOut s.config.ChannelBufferSize mr s.subHeap topic.Subscribers).length
        = s.subHeap.length := length_foldl_modify _ _ _
    rw [hlen]
    rcases mem_aset _ _ _ _ hq with h | h
    · exact hinv q h
    · subst h
      exact hinv (tn, topic) (alookup_some_mem _ _ _ ht)

theorem inv_alloc (s : ServiceState) (m : Message) (hinv : Inv s) :
    Inv { s with msgHeap := s.msgHeap ++ [m] } := by
  intro q hq
  exact hinv q hq

theorem inv_step {s s' : ServiceState} (hinv : Inv s) (hstep : Step s s') : Inv s' := by
  cases hstep with
  | create name now => exact inv_create s name now hinv
  | delete name => exact inv_delete s name hinv
  | subscribe tn cid lastN now => exact inv_subscribe s tn cid lastN now hinv
  | unsubscribe tn cid => exact inv_unsubscribe s tn cid hinv
  | publish tn mr now fresh => exact inv_publish s tn mr now fresh hinv
  | allocMsg m => exact inv_alloc s m hinv

theorem inv_reachable {cfg : Config} {s : ServiceState} (h : Reachable cfg s) : Inv s := by
  induction h with
  | refl => exact inv_init cfg
  | tail _ hstep ih => exact inv_step ih hstep

/-! ### Characterisations of the operations by lookup outcome -/

theorem lget_some_lt {α : Type} :
    ∀ (l : List α) (i : Nat) (a : α), lget l i = some a → i < l.length := by
  intro l
  induction l with
  | nil => intro i a h; rw [lget_nil] at h; exact absurd h (by simp)
  | cons x xs ih =>
    intro i a h
    cases i with
    | zero => simp
    | succ j =>
      have := ih j a h
      simpa using this

theorem alookup_aremove_self {α : Type} (l : List (String × α)) (k : String) :
    alookup (aremove l k) k = none := by
  rw [alookup_eq_none_iff_keys]
  intro hmem
  obtain ⟨p, hp, hp2⟩ := List.mem_map.mp hmem
  exact (mem_aremove _ _ _ hp).2 hp2

theorem buffer_add {α : Type} (rb : RingBuffer α) (m : α) :
    (rb.Add m).buffer = rb.buffer.set rb.tail (some m) := by
  simp only [RingBuffer.Add]
  split <;> rfl

theorem foldl_enqueue_no_drop (B : Nat) :
    ∀ (hist acc : List MsgRef), acc.length + hist.length ≤ B →
      hist.foldl (enqueueDropIfFull B) acc = acc ++ hist := by
  intro hist
  induction hist with
  | nil => intro acc h; simp
  | cons x xs ih =>
    intro acc h
    simp only [List.length_cons] at h
    rw [List.foldl_cons]
    have he : enqueueDropIfFull B acc x = acc ++ [x] := by
      rw [enqueueDropIfFull, if_pos (by omega)]
    rw [he, ih (acc ++ [x]) (by simp; omega)]
    simp

theorem publish_absent (s : ServiceState) (tn : String) (mr : MsgRef) (now : Nat)
    (fresh : String) (h : alookup s.topics tn = none) :
    Publish s tn mr now fresh = (s, some (.topicNotFound tn)) := by
  rw [Publish, h]

theorem publish_present (s : ServiceState) (tn : String) (mr : MsgRef) (now : Nat)
    (fresh : String) (topic : Topic) (h : alookup s.topics tn = some topic) :
    Publish s tn mr now fresh =
      ({ s with
          msgHeap := listModify s.msgHeap mr (stampMessage tn now fresh),
          subHeap := fanOut s.config.ChannelBufferSize mr s.subHeap topic.Subscribers,
          topics := aset s.topics tn { topic with Messages := topic.Messages.Add mr } },
       none) := by
  rw [Publish, h]

theorem subscribe_ok (s : ServiceState) (tn cid : String) (lastN : Int) (now : Nat)
    (topic : Topic) (ht : alookup s.topics tn = some topic)
    (hc : alookup topic.Subscribers cid = none) :
    Subscribe s tn cid lastN now =
      ({ s with
          subHeap := s.subHeap ++
            [{ ClientID := cid, TopicName := tn,
               MessageChan := (if lastN > 0 then topic.Messages.GetLastN lastN else []).foldl
                 (enqueueDropIfFull s.config.ChannelBufferSize) [],
               chanClosed := false, LastSeen := now }],
          topics := aset s.topics tn
            { topic with Subscribers := aset topic.Subscribers cid s.subHeap.length } },
       .ok s.subHeap.length) := by
  simp only [Subscribe, ht, hc]

theorem deleteTopic_present (s : ServiceState) (tn : String) (topic : Topic)
    (h : alookup s.topics tn = some topic) :
    DeleteTopic s tn =
      ({ s with subHeap := closeAll s.subHeap topic.Subscribers,
                topics := aremove s.topics tn }, none) := by
  rw [DeleteTopic, h]

/-! ### Concrete states used by the witnesses -/

def cfgW : Config := { RingBufferSize := 3, ChannelBufferSize := 2 }
def stateW0 : ServiceState := initState cfgW
def stateW1 : ServiceState := (CreateTopic stateW0 "t" 0).1
def msgW : Message := { ID := "", Payload := "p", Topic := "", Timestamp := 0 }
def stateW2 : ServiceState := { stateW1 with msgHeap := stateW1.msgHeap ++ [msgW] }
def topicW : Topic :=
  { Name := "t", Subscribers := [], Messages := NewRingBuffer MsgRef 3, CreatedAt := 0 }
def stateW3 : ServiceState := (Subscribe stateW1 "t" "c1" 0 1).1
def topicW3 : Topic :=
  { Name := "t", Subscribers := [("c1", 0)], Messages := NewRingBuffer MsgRef 3,
    CreatedAt := 0 }

theorem reachable_stateW3 : Reachable cfgW stateW3 :=
  Relation.ReflTransGen.tail
    (Relation.ReflTransGen.tail Relation.ReflTransGen.refl (Step.create stateW0 "t" 0))
    (Step.subscribe stateW1 "t" "c1" 0 1)

/-! ### The claims -/

/-- C1: if the topic exists, `Publish` returns success, stamps the caller's
message in the heap (topic set to the name, timestamp set to now, the id
replaced by the fresh UUID exactly when it was empty) and appends the
reference to the topic's replay ring; if the topic does not exist it returns
a TOPIC_NOT_FOUND error and the whole state is unchanged. -/
theorem publish_stamps_and_appends (s : ServiceState) (tn : String) (mr : MsgRef)
    (now : Nat) (fresh : String) :
    (alookup s.topics tn = none →
      Publish s tn mr now fresh = (s, some (.topicNotFound tn))) ∧
    (∀ topic, alookup s.topics tn = some topic →
      (Publish s tn mr now fresh).2 = none ∧
      (∀ m, lget s.msgHeap mr = some m →
        lget (Publish s tn mr now fresh).1.msgHeap mr =
          some { m with Topic := tn, Timestamp := now,
                        ID := if m.ID = "" then fresh else m.ID }) ∧
      alookup (Publish s tn mr now fresh).1.topics tn =
        some { topic with Messages := topic.Messages.Add mr }) := by
  constructor
  · intro h
    exact publish_absent s tn mr now fresh h
  · intro topic h
    rw [publish_present s tn mr now fresh topic h]
    refine ⟨rfl, ?_, ?_⟩
    · intro m hm
      show lget (listModify s.msgHeap mr (stampMessage tn now fresh)) mr = _
      rw [lget_listModify_eq, hm]
      rfl
    · exact alookup_aset_eq _ _ _

/-- C1 witness: publishing the heap message `msgW` (empty id) to the existing
topic `"t"` succeeds, stamps it with topic, timestamp 5 and the fresh id. -/
theorem publish_stamps_and_appends_witness :
    (Publish stateW2 "t" 0 5 "u1").2 = none ∧
    lget (Publish stateW2 "t" 0 5 "u1").1.msgHeap 0 =
      some { msgW with Topic := "t", Timestamp := 5,
                       ID := if msgW.ID = "" then "u1" else msgW.ID } :=
  ⟨((publish_stamps_and_appends stateW2 "t" 0 5 "u1").2 topicW rfl).1,
   ((publish_stamps_and_appends stateW2 "t" 0 5 "u1").2 topicW rfl).2.1 msgW rfl⟩

/-- C2: after adding `msgs` with `C < msgs.length` messages to a fresh ring of
capacity `C ≥ 1`, a tail read of any `n ≥ C` returns exactly the last `C`
messages, oldest first. -/
theorem ring_drop_oldest {α : Type} (C : Nat) (hC : 1 ≤ C) (msgs : List α)
    (hk : C < msgs.length) (n : Int) (hn : (C : Int) ≤ n) :
    (addAll (NewRingBuffer α C) msgs).GetLastN n = msgs.drop (msgs.length - C) := by
  have hinv := ringInv_addAll C hC msgs
  rw [ringInv_getLastN _ _ hinv n]
  have hlen : (msgs.drop (msgs.length - C)).length = C := by
    rw [List.length_drop]
    omega
  rw [hlen]
  have hmin : min n.toNat C = C := by omega
  rw [hmin, Nat.sub_self, List.drop_zero]

/-- C2 witness: capacity 3, five adds, tail-10 read gives the last three. -/
theorem ring_drop_oldest_witness :
    (addAll (NewRingBuffer Nat 3) [1, 2, 3, 4, 5]).GetLastN 10 = [3, 4, 5] :=
  ring_drop_oldest 3 (by decide) [1, 2, 3, 4, 5] (by decide) 10 (by decide)

/-- C7: on a ring whose current chronological content is `l`, `GetLastN n`
returns the `min(n, count)` most recent messages oldest-first (the final
segment of `l` of that length), and returns `[]` whenever `n ≤ 0` or the
ring is empty. -/
theorem getLastN_spec {α : Type} (rb : RingBuffer α) (l : List α)
    (hinv : RingInv rb l) (n : Int) :
    rb.GetLastN n = l.drop (l.length - min n.toNat l.length) ∧
    (rb.GetLastN n).length = min n.toNat l.length ∧
    ((n ≤ 0 ∨ rb.count = 0) → rb.GetLastN n = []) := by
  have hmain := ringInv_getLastN rb l hinv n
  refine ⟨hmain, ?_, ?_⟩
  · rw [hmain, List.length_drop]
    omega
  · intro h
    rw [RingBuffer.GetLastN, if_pos h]

/-- C7 witness: ring holding [10, 20], tail-1 read returns [20]. -/
theorem getLastN_spec_witness :
    (addAll (NewRingBuffer Nat 3) [10, 20]).GetLastN 1 = [20] ∧
    ((addAll (NewRingBuffer Nat 3) [10, 20]).GetLastN 1).length = 1 ∧
    (((1 : Int) ≤ 0 ∨ (addAll (NewRingBuffer Nat 3) [10, 20]).count = 0) →
      (addAll (NewRingBuffer Nat 3) [10, 20]).GetLastN 1 = []) :=
  getLastN_spec (addAll (NewRingBuffer Nat 3) [10, 20]) [10, 20]
    (ringInv_addAll 3 (by decide) [10, 20]) 1

/-- C8: the ring's count is `min k C` after `k` adds into a fresh ring of
capacity `C ≥ 1` (hence always between 0 and C), and one `Add` increments
the count exactly when `count < size` and leaves it at `C` when full. -/
theorem ring_count_spec {α : Type} (C : Nat) (hC : 1 ≤ C) (msgs : List α)
    (rb : RingBuffer α) (m : α) :
    (addAll (NewRingBuffer α C) msgs).count = min msgs.length C ∧
    (addAll (NewRingBuffer α C) msgs).count ≤ C ∧
    (rb.count < rb.size → (rb.Add m).count = rb.count + 1) ∧
    (rb.count = rb.size → (rb.Add m).count = rb.size) := by
  have h1 := count_addAll msgs (NewRingBuffer α C) (Nat.zero_le C)
  refine ⟨?_, ?_, ?_, ?_⟩
  · rw [h1]
    show min (0 + msgs.length) C = min msgs.length C
    omega
  · rw [h1]
    show min (0 + msgs.length) C ≤ C
    omega
  · intro h
    rw [count_add, if_pos h]
  · intro h
    rw [count_add, if_neg (by omega)]
    exact h

/-- C8 witness: capacity 3, five adds, count is 3; and one `Add` on that full
ring leaves the count at 3. -/
theorem ring_count_spec_witness :
    (addAll (NewRingBuffer Nat 3) [1, 2, 3, 4, 5]).count = min 5 3 ∧
    (addAll (NewRingBuffer Nat 3) [1, 2, 3, 4, 5]).count ≤ 3 ∧
    ((addAll (NewRingBuffer Nat 3) [1, 2, 3, 4, 5]).count <
        (addAll (NewRingBuffer Nat 3) [1, 2, 3, 4, 5]).size →
      ((addAll (NewRingBuffer Nat 3) [1, 2, 3, 4, 5]).Add 6).count =
        (addAll (NewRingBuffer Nat 3) [1, 2, 3, 4, 5]).count + 1) ∧
    ((addAll (NewRingBuffer Nat 3) [1, 2, 3, 4, 5]).count =
        (addAll (NewRingBuffer Nat 3) [1, 2, 3, 4, 5]).size →
      ((addAll (NewRingBuffer Nat 3) [1, 2, 3, 4, 5]).Add 6).count = 3) :=
  ring_count_spec 3 (by decide) [1, 2, 3, 4, 5]
    (addAll (NewRingBuffer Nat 3) [1, 2, 3, 4, 5]) 6

/-- C3: `Subscribe` with `lastN = k > 0` by a client not yet subscribed, on a
topic whose ring holds the result of publishing the references `msgs` into a
fresh ring of capacity `C ≥ 1`, succeeds and enqueues exactly
`min(k, min(msgs.length, C))` replay messages into the new subscriber's
queue in chronological order, provided that count fits the queue capacity. -/
theorem subscribe_replay (s : ServiceState) (tn cid : String) (k : Int) (now : Nat)
    (topic : Topic) (msgs : List MsgRef) (C : Nat)
    (ht : alookup s.topics tn = some topic)
    (hc : alookup topic.Subscribers cid = none)
    (hring : topic.Messages = addAll (NewRingBuffer MsgRef C) msgs)
    (hC : 1 ≤ C) (hk : 0 < k)
    (hcap : min k.toNat (min msgs.length C) ≤ s.config.ChannelBufferSize) :
    (Subscribe s tn cid k now).2 = .ok s.subHeap.length ∧
    lget (Subscribe s tn cid k now).1.subHeap s.subHeap.length =
      some { ClientID := cid, TopicName := tn,
             MessageChan := msgs.drop (msgs.length - min k.toNat (min msgs.length C)),
             chanClosed := false, LastSeen := now } ∧
    (msgs.drop (msgs.length - min k.toNat (min msgs.length C))).length
      = min k.toNat (min msgs.length C) := by
  have hinv := ringInv_addAll C hC msgs
  rw [← hring] at hinv
  have hLlen : (msgs.drop (msgs.length - C)).length = min msgs.length C := by
    rw [List.length_drop]
    omega
  have hhist : topic.Messages.GetLastN k =
      msgs.drop (msgs.length - min k.toNat (min msgs.length C)) := by
    rw [ringInv_getLastN _ _ hinv k, hLlen, List.drop_drop]
    congr 1
    omega
  have hreplay : (if k > 0 then topic.Messages.GetLastN k else []).foldl
      (enqueueDropIfFull s.config.ChannelBufferSize) []
      = msgs.drop (msgs.length - min k.toNat (min msgs.length C)) := by
    rw [if_pos hk, hhist]
    have := foldl_enqueue_no_drop s.config.ChannelBufferSize
      (msgs.drop (msgs.length - min k.toNat (min msgs.length C))) []
      (by
        simp only [List.length_nil, Nat.zero_add, List.length_drop]
        omega)
    rw [this, List.nil_append]
  rw [subscribe_ok s tn cid k now topic ht hc]
  refine ⟨rfl, ?_, ?_⟩
  · show lget (s.subHeap ++ [_]) s.subHeap.length = _
    rw [hreplay]
    have := lget_append_length s.subHeap
      ({ ClientID := cid, TopicName := tn,
         MessageChan := msgs.drop (msgs.length - min k.toNat (min msgs.length C)),
         chanClosed := false, LastSeen := now } : Subscriber) []
    exact this
  · rw [List.length_drop]
    omega

def stateR0 : ServiceState :=
  { stateW1 with msgHeap := stateW1.msgHeap ++ [msgW, msgW, msgW] }
def stateR1 : ServiceState := (Publish stateR0 "t" 0 1 "a").1
def stateR2 : ServiceState := (Publish stateR1 "t" 1 2 "b").1
def stateR3 : ServiceState := (Publish stateR2 "t" 2 3 "c").1
def topicR3 : Topic :=
  { Name := "t", Subscribers := [],
    Messages := addAll (NewRingBuffer MsgRef 3) [0, 1, 2], CreatedAt := 0 }

/-- C3 witness: three publishes into capacity 3, subscribe with lastN = 2
replays the last two references in order. -/
theorem subscribe_replay_witness :
    (Subscribe stateR3 "t" "c2" 2 9).2 = .ok stateR3.subHeap.length ∧
    lget (Subscribe stateR3 "t" "c2" 2 9).1.subHeap stateR3.subHeap.length =
      some { ClientID := "c2", TopicName := "t",
             MessageChan := [0, 1, 2].drop (3 - min (Int.toNat 2) (min 3 3)),
             chanClosed := false, LastSeen := 9 } ∧
    ([0, 1, 2].drop (3 - min (Int.toNat 2) (min 3 3))).length
      = min (Int.toNat 2) (min 3 3) :=
  subscribe_replay stateR3 "t" "c2" 2 9 topicR3 [0, 1, 2] 3 rfl rfl rfl
    (by decide) (by decide) (by decide)

/-- C4: a publish to an existing topic of a reachable state returns success
whatever the queue states are, and its effect on every attached subscriber's
heap cell is exactly one `tryEnqueue`: append the message once when the
queue has room, drop it for that subscriber when it is full. -/
theorem publish_fanout (cfg : Config) (s : ServiceState) (hreach : Reachable cfg s)
    (tn : String) (topic : Topic) (ht : alookup s.topics tn = some topic)
    (mr : MsgRef) (now : Nat) (fresh : String) :
    (Publish s tn mr now fresh).2 = none ∧
    (∀ cid r, (cid, r) ∈ topic.Subscribers →
      lget (Publish s tn mr now fresh).1.subHeap r =
        (lget s.subHeap r).map (tryEnqueue s.config.ChannelBufferSize mr)) ∧
    (∀ cid r sub, (cid, r) ∈ topic.Subscribers → lget s.subHeap r = some sub →
      lget (Publish s tn mr now fresh).1.subHeap r =
        some (if sub.MessageChan.length < s.config.ChannelBufferSize
              then { sub with MessageChan := sub.MessageChan ++ [mr] }
              else sub)) := by
  have hinv := inv_reachable hreach
  obtain ⟨hnd1, hnd2, hbound⟩ := hinv (tn, topic) (alookup_some_mem _ _ _ ht)
  rw [publish_present s tn mr now fresh topic ht]
  have heff : ∀ cid r, (cid, r) ∈ topic.Subscribers →
      lget (fanOut s.config.ChannelBufferSize mr s.subHeap topic.Subscribers) r =
        (lget s.subHeap r).map (tryEnqueue s.config.ChannelBufferSize mr) := by
    intro cid r hmem
    exact lget_foldl_modify_nodup _ _ _ _ hnd2 (List.mem_map.mpr ⟨(cid, r), hmem, rfl⟩)
  refine ⟨rfl, heff, ?_⟩
  intro cid r sub hmem hsub
  have := heff cid r hmem
  rw [hsub] at this
  rw [this]
  rfl

/-- C4 witness: publishing to the topic with one attached subscriber (empty
queue, capacity 2) returns success and appends the reference once. -/
theorem publish_fanout_witness :
    (Publish stateW3 "t" 0 7 "u").2 = none ∧
    (∀ cid r, (cid, r) ∈ topicW3.Subscribers →
      lget (Publish stateW3 "t" 0 7 "u").1.subHeap r =
        (lget stateW3.subHeap r).map (tryEnqueue stateW3.config.ChannelBufferSize 0)) ∧
    (∀ cid r sub, (cid, r) ∈ topicW3.Subscribers → lget stateW3.subHeap r = some sub →
      lget (Publish stateW3 "t" 0 7 "u").1.subHeap r =
        some (if sub.MessageChan.length < stateW3.config.ChannelBufferSize
              then { sub with MessageChan := sub.MessageChan ++ [0] }
              else sub)) :=
  publish_fanout cfgW stateW3 reachable_stateW3 "t" topicW3 rfl 0 7 "u"

/-- C5: in every reachable registry state each topic's subscriber map has
pairwise-distinct clientIDs, and `Subscribe` for a clientID already attached
to the topic returns an already-subscribed error leaving the whole state
unchanged. -/
theorem subscriber_uniqueness (cfg : Config) (s : ServiceState)
    (hreach : Reachable cfg s) :
    (∀ q, q ∈ s.topics → (q.2.Subscribers.map Prod.fst).Nodup) ∧
    (∀ tn topic cid (lastN : Int) (now : Nat), alookup s.topics tn = some topic →
      alookup topic.Subscribers cid ≠ none →
      Subscribe s tn cid lastN now = (s, .error (.alreadySubscribed cid tn))) := by
  have hinv := inv_reachable hreach
  constructor
  · intro q hq
    exact (hinv q hq).1
  · intro tn topic cid lastN now ht hcne
    cases hc : alookup topic.Subscribers cid with
    | none => exact absurd hc hcne
    | some r => simp only [Subscribe, ht, hc]

/-- C5 witness: a second subscribe of `"c1"` to `"t"` in the reachable state
`stateW3` fails with the already-subscribed error and changes nothing. -/
theorem subscriber_uniqueness_witness :
    Subscribe stateW3 "t" "c1" 0 9 =
      (stateW3, .error (.alreadySubscribed "c1" "t")) :=
  (subscriber_uniqueness cfgW stateW3 reachable_stateW3).2 "t" topicW3 "c1" 0 9 rfl
    (by decide)

/-- C6: deleting an existing topic succeeds, removes it from the registry
(no listTopics entry carries its name any more), and closes the delivery
queue of every subscriber that was attached; deleting an absent topic
returns TOPIC_NOT_FOUND and changes nothing. -/
theorem deleteTopic_spec (s : ServiceState) (tn : String) :
    (alookup s.topics tn = none → DeleteTopic s tn = (s, some (.topicNotFound tn))) ∧
    (∀ topic, alookup s.topics tn = some topic →
      (DeleteTopic s tn).2 = none ∧
      alookup (DeleteTopic s tn).1.topics tn = none ∧
      (∀ info, info ∈ ListTopics (DeleteTopic s tn).1 → info.Name ≠ tn) ∧
      (∀ cid r, (cid, r) ∈ topic.Subscribers →
        lget (DeleteTopic s tn).1.subHeap r =
          (lget s.subHeap r).map (fun sub => { sub with chanClosed := true }))) := by
  constructor
  · intro h
    rw [DeleteTopic, h]
  · intro topic h
    rw [deleteTopic_present s tn topic h]
    refine ⟨rfl, alookup_aremove_self _ _, ?_, ?_⟩
    · intro info hinfo
      obtain ⟨p, hp, hp2⟩ := List.mem_map.mp hinfo
      have hne := (mem_aremove _ _ _ hp).2
      intro heq
      apply hne
      rw [← hp2] at heq
      exact heq
    · intro cid r hmem
      show lget (closeAll s.subHeap topic.Subscribers) r = _
      exact lget_foldl_modify_idem (fun sub => { sub with chanClosed := true })
        (fun x => rfl) topic.Subscribers s.subHeap r
        (List.mem_map.mpr ⟨(cid, r), hmem, rfl⟩)

theorem handlePublish_badRequest_empty (s : ServiceState) (reqTopic : String)
    (reqMessage : Option Message) (now : Nat) (fresh : String)
    (h : reqTopic = "" ∨ reqMessage = none) :
    handlePublish s reqTopic reqMessage now fresh =
      ({ RespType := WSResponseTypeError, Topic := "", Status := "",
         Error := some { Code := ErrorCodeBadRequest,
                         Message := "topic and message are required for publish" } },
       s) := by
  rw [handlePublish, if_pos h]

theorem handlePublish_badRequest_id (s : ServiceState) (reqTopic : String)
    (m : Message) (now : Nat) (fresh : String)
    (hT : reqTopic ≠ "") (hid : m.ID = "") :
    handlePublish s reqTopic (some m) now fresh =
      ({ RespType := WSResponseTypeError, Topic := "", Status := "",
         Error := some { Code := ErrorCodeBadRequest,
                         Message := "message.id is required" } },
       s) := by
  rw [handlePublish, if_neg (by push_neg; exact ⟨hT, by simp⟩)]
  simp only [Option.getD_some]
  rw [if_pos hid]

theorem handlePublish_notFound (s : ServiceState) (reqTopic : String)
    (m : Message) (now : Nat) (fresh : String)
    (hT : reqTopic ≠ "") (hid : m.ID ≠ "")
    (hp : alookup s.topics reqTopic = none) :
    handlePublish s reqTopic (some m) now fresh =
      ({ RespType := WSResponseTypeError, Topic := "", Status := "",
         Error := some { Code := ErrorCodeTopicNotFound,
                         Message := (PubSubError.topicNotFound reqTopic).errString } },
       { s with msgHeap := s.msgHeap ++ [m] }) := by
  rw [handlePublish, if_neg (by push_neg; exact ⟨hT, by simp⟩)]
  simp only [Option.getD_some]
  rw [if_neg hid]
  rw [publish_absent _ _ _ _ _
    (show alookup ({ s with msgHeap := s.msgHeap ++ [m] } : ServiceState).topics reqTopic
      = none from hp)]
  dsimp only
  rw [if_pos (show (PubSubError.topicNotFound reqTopic).errString
    = "topic " ++ reqTopic ++ " not found" from rfl)]

theorem handlePublish_ack (s : ServiceState) (reqTopic : String)
    (m : Message) (now : Nat) (fresh : String) (topic : Topic)
    (hT : reqTopic ≠ "") (hid : m.ID ≠ "")
    (hp : alookup s.topics reqTopic = some topic) :
    handlePublish s reqTopic (some m) now fresh =
      ({ RespType := WSResponseTypeAck, Topic := reqTopic, Status := "ok",
         Error := none },
       (Publish { s with msgHeap := s.msgHeap ++ [m] } reqTopic s.msgHeap.length
         now fresh).1) := by
  rw [handlePublish, if_neg (by push_neg; exact ⟨hT, by simp⟩)]
  simp only [Option.getD_some]
  rw [if_neg hid]
  rw [publish_present _ _ _ _ _ _
    (show alookup ({ s with msgHeap := s.msgHeap ++ [m] } : ServiceState).topics reqTopic
      = some topic from hp)]

/-- C9: the publish verb dispatcher replies BAD_REQUEST and leaves the
registry untouched when the topic is empty, the message is absent, or the
message id is empty; otherwise it invokes the registry's Publish (on the
freshly decoded message object) and, when that succeeds, replies an ack
with status "ok" echoing the topic. -/
theorem handlePublish_spec (s : ServiceState) (reqTopic : String)
    (reqMessage : Option Message) (now : Nat) (fresh : String) :
    ((reqTopic = "" ∨ reqMessage = none ∨ (∃ m, reqMessage = some m ∧ m.ID = "")) →
      (handlePublish s reqTopic reqMessage now fresh).1.Error.map WSError.Code
          = some ErrorCodeBadRequest ∧
      (handlePublish s reqTopic reqMessage now fresh).2 = s) ∧
    (∀ m, reqMessage = some m → m.ID ≠ "" → reqTopic ≠ "" →
      (handlePublish s reqTopic reqMessage now fresh).2 =
        (Publish { s with msgHeap := s.msgHeap ++ [m] } reqTopic s.msgHeap.length
          now fresh).1 ∧
      (alookup s.topics reqTopic ≠ none →
        (handlePublish s reqTopic reqMessage now fresh).1 =
          { RespType := WSResponseTypeAck, Topic := reqTopic, Status := "ok",
            Error := none })) := by
  constructor
  · intro hbad
    by_cases h1 : reqTopic = "" ∨ reqMessage = none
    · rw [handlePublish_badRequest_empty s reqTopic reqMessage now fresh h1]
      exact ⟨rfl, rfl⟩
    · push_neg at h1
      obtain ⟨hT, hM⟩ := h1
      rcases hbad with h | h | ⟨m, hm, hid⟩
      · exact absurd h hT
      · exact absurd h hM
      · subst hm
        rw [handlePublish_badRequest_id s reqTopic m now fresh hT hid]
        exact ⟨rfl, rfl⟩
  · intro m hm hid hT
    subst hm
    cases hp : alookup s.topics reqTopic with
    | none =>
      rw [handlePublish_notFound s reqTopic m now fresh hT hid hp]
      constructor
      · rw [publish_absent _ _ _ _ _
          (show alookup ({ s with msgHeap := s.msgHeap ++ [m] } : ServiceState).topics
            reqTopic = none from hp)]
      · intro hne
        exact absurd rfl hne
    | some topic =>
      rw [handlePublish_ack s reqTopic m now fresh topic hT hid hp]
      exact ⟨rfl, fun _ => rfl⟩

def msgGood : Message := { ID := "m1", Payload := "p", Topic := "", Timestamp := 0 }

/-- C9 witness: a valid publish frame on the existing topic `"t"` invokes the
registry and is acked with status ok. -/
theorem handlePublish_spec_witness :
    (handlePublish stateW1 "t" (some msgGood) 4 "u").2 =
      (Publish { stateW1 with msgHeap := stateW1.msgHeap ++ [msgGood] } "t"
        stateW1.msgHeap.length 4 "u").1 ∧
    (alookup stateW1.topics "t" ≠ none →
      (handlePublish stateW1 "t" (some msgGood) 4 "u").1 =
        { RespType := WSResponseTypeAck, Topic := "t", Status := "ok",
          Error := none }) :=
  (handlePublish_spec stateW1 "t" (some msgGood) 4 "u").2 msgGood rfl
    (by decide) (by decide)

/-- C10: `Publish` stamps the caller's heap object in place and stores the
reference itself in the replay ring and in each not-full subscriber queue;
a second `Publish` of the same reference to a different topic restamps the
shared object while the first topic's ring slot and the undelivered queue
entries still hold that reference, so they now dereference to the restamped
message. -/
theorem publish_aliasing (s : ServiceState) (t1 : String) (topic1 : Topic)
    (mr : MsgRef) (now1 now2 : Nat) (fresh1 fresh2 : String)
    (h1 : alookup s.topics t1 = some topic1)
    (hnd : (topic1.Subscribers.map Prod.snd).Nodup)
    (htl : topic1.Messages.tail < topic1.Messages.buffer.length) :
    (∀ m, lget s.msgHeap mr = some m →
      lget (Publish s t1 mr now1 fresh1).1.msgHeap mr =
        some (stampMessage t1 now1 fresh1 m)) ∧
    (∀ tp1, alookup (Publish s t1 mr now1 fresh1).1.topics t1 = some tp1 →
      tp1.Messages.readSlot topic1.Messages.tail = some mr) ∧
    (∀ cid r sub, (cid, r) ∈ topic1.Subscribers → lget s.subHeap r = some sub →
      sub.MessageChan.length < s.config.ChannelBufferSize →
      ∃ sub1, lget (Publish s t1 mr now1 fresh1).1.subHeap r = some sub1 ∧
        mr ∈ sub1.MessageChan) ∧
    (∀ t2 tp2, t2 ≠ t1 →
      alookup (Publish s t1 mr now1 fresh1).1.topics t2 = some tp2 →
      (∀ m1, lget (Publish s t1 mr now1 fresh1).1.msgHeap mr = some m1 →
        lget (Publish (Publish s t1 mr now1 fresh1).1 t2 mr now2 fresh2).1.msgHeap mr =
          some (stampMessage t2 now2 fresh2 m1)) ∧
      (∀ tp1, alookup (Publish (Publish s t1 mr now1 fresh1).1 t2 mr
            now2 fresh2).1.topics t1 = some tp1 →
        tp1.Messages.readSlot topic1.Messages.tail = some mr) ∧
      (∀ r sub1, lget (Publish s t1 mr now1 fresh1).1.subHeap r = some sub1 →
        mr ∈ sub1.MessageChan →
        ∃ sub2, lget (Publish (Publish s t1 mr now1 fresh1).1 t2 mr
            now2 fresh2).1.subHeap r = some sub2 ∧ mr ∈ sub2.MessageChan)) := by
  have hP1 := publish_present s t1 mr now1 fresh1 topic1 h1
  refine ⟨?_, ?_, ?_, ?_⟩
  · intro m hm
    rw [hP1]
    show lget (listModify s.msgHeap mr (stampMessage t1 now1 fresh1)) mr = _
    rw [lget_listModify_eq, hm]
    rfl
  · intro tp1 htp1
    rw [hP1] at htp1
    have : tp1 = { topic1 with Messages := topic1.Messages.Add mr } := by
      have := alookup_aset_eq s.topics t1 { topic1 with Messages := topic1.Messages.Add mr }
      rw [this] at htp1
      injection htp1 with h2
      exact h2.symm
    subst this
    show ((lget (topic1.Messages.Add mr).buffer topic1.Messages.tail).getD none) = some mr
    rw [buffer_add, lget_set_eq _ _ _ htl]
    rfl
  · intro cid r sub hmem hsub hroom
    rw [hP1]
    show ∃ sub1, lget (fanOut s.config.ChannelBufferSize mr s.subHeap topic1.Subscribers) r
        = some sub1 ∧ mr ∈ sub1.MessageChan
    have heff := lget_foldl_modify_nodup (tryEnqueue s.config.ChannelBufferSize mr)
      topic1.Subscribers s.subHeap r hnd (List.mem_map.mpr ⟨(cid, r), hmem, rfl⟩)
    rw [hsub] at heff
    refine ⟨tryEnqueue s.config.ChannelBufferSize mr sub, heff, ?_⟩
    rw [tryEnqueue, if_pos hroom]
    exact List.mem_append_right _ (List.mem_singleton_self mr)
  · intro t2 tp2 hne htp2
    have hP2 := publish_present (Publish s t1 mr now1 fresh1).1 t2 mr now2 fresh2 tp2 htp2
    refine ⟨?_, ?_, ?_⟩
    · intro m1 hm1
      rw [hP2]
      show lget (listModify (Publish s t1 mr now1 fresh1).1.msgHeap mr
        (stampMessage t2 now2 fresh2)) mr = _
      rw [lget_listModify_eq, hm1]
      rfl
    · intro tp1 htp1
      rw [hP2] at htp1
      have halt : alookup (aset (Publish s t1 mr now1 fresh1).1.topics t2
          { tp2 with Messages := tp2.Messages.Add mr }) t1
          = alookup (Publish s t1 mr now1 fresh1).1.topics t1 :=
        alookup_aset_ne _ _ _ _ hne
      rw [halt] at htp1
      rw [hP1] at htp1
      have := alookup_aset_eq s.topics t1 { topic1 with Messages := topic1.Messages.Add mr }
      rw [this] at htp1
      have htp1eq : tp1 = { topic1 with Messages := topic1.Messages.Add mr } := by
        injection htp1 with h2
        exact h2.symm
      subst htp1eq
      show ((lget (topic1.Messages.Add mr).buffer topic1.Messages.tail).getD none) = some mr
      rw [buffer_add, lget_set_eq _ _ _ htl]
      rfl
    · intro r sub1 hsub1 hmr
      rw [hP2]
      show ∃ sub2, lget (fanOut (Publish s t1 mr now1 fresh1).1.config.ChannelBufferSize mr
          (Publish s t1 mr now1 fresh1).1.subHeap tp2.Subscribers) r = some sub2 ∧
          mr ∈ sub2.MessageChan
      have hlt := lget_some_lt _ _ _ hsub1
      have hlen : (fanOut (Publish s t1 mr now1 fresh1).1.config.ChannelBufferSize mr
          (Publish s t1 mr now1 fresh1).1.subHeap tp2.Subscribers).length
          = (Publish s t1 mr now1 fresh1).1.subHeap.length := length_foldl_modify _ _ _
      obtain ⟨sub2, hsub2⟩ := lget_eq_some_of_lt
        (fanOut (Publish s t1 mr now1 fresh1).1.config.ChannelBufferSize mr
          (Publish s t1 mr now1 fresh1).1.subHeap tp2.Subscribers) r (by rw [hlen]; exact hlt)
      refine ⟨sub2, hsub2, ?_⟩
      have hpres := lget_foldl_modify_pres
        (f := tryEnqueue (Publish s t1 mr now1 fresh1).1.config.ChannelBufferSize mr)
        (Q := fun sub => mr ∈ sub.MessageChan)
        (by
          intro x hx
          rw [tryEnqueue]
          by_cases hxf : x.MessageChan.length <
            (Publish s t1 mr now1 fresh1).1.config.ChannelBufferSize
          · rw [if_pos hxf]
            exact List.mem_append_left _ hx
          · rw [if_neg hxf]
            exact hx)
        tp2.Subscribers (Publish s t1 mr now1 fresh1).1.subHeap r
        (by
          intro a ha
          rw [hsub1] at ha
          have : a = sub1 := by
            injection ha with h3
            exact h3.symm
          rw [this]
          exact hmr)
      exact hpres sub2 hsub2

def stateX1 : ServiceState := (CreateTopic stateW0 "a" 0).1
def stateX2 : ServiceState := (CreateTopic stateX1 "b" 0).1
def stateX3 : ServiceState := (Subscribe stateX2 "a" "c1" 0 1).1
def stateX4 : ServiceState := { stateX3 with msgHeap := stateX3.msgHeap ++ [msgW] }
def topicXa : Topic :=
  { Name := "a", Subscribers := [("c1", 0)], Messages := NewRingBuffer MsgRef 3,
    CreatedAt := 0 }
def topicXb : Topic :=
  { Name := "b", Subscribers := [], Messages := NewRingBuffer MsgRef 3, CreatedAt := 0 }
def subX1 : Subscriber :=
  { ClientID := "c1", TopicName := "a", MessageChan := [0], chanClosed := false,
    LastSeen := 1 }

/-- C10 witness: publish heap message 0 to `"a"`, then to `"b"`: the shared
object is restamped with topic `"b"` while topic `"a"`'s ring slot and the
subscriber's queue still hold reference 0. -/
theorem publish_aliasing_witness :
    lget (Publish (Publish stateX4 "a" 0 5 "u1").1 "b" 0 6 "u2").1.msgHeap 0 =
      some (stampMessage "b" 6 "u2" (stampMessage "a" 5 "u1" msgW)) ∧
    (∀ tp1, alookup (Publish (Publish stateX4 "a" 0 5 "u1").1 "b" 0 6
          "u2").1.topics "a" = some tp1 →
      tp1.Messages.readSlot topicXa.Messages.tail = some 0) ∧
    (∃ sub2, lget (Publish (Publish stateX4 "a" 0 5 "u1").1 "b" 0 6
        "u2").1.subHeap 0 = some sub2 ∧ 0 ∈ sub2.MessageChan) :=
  ⟨((publish_aliasing stateX4 "a" topicXa 0 5 6 "u1" "u2" rfl (by decide)
      (by decide)).2.2.2 "b" topicXb (by decide) rfl).1
        (stampMessage "a" 5 "u1" msgW) rfl,
   ((publish_aliasing stateX4 "a" topicXa 0 5 6 "u1" "u2" rfl (by decide)
      (by decide)).2.2.2 "b" topicXb (by decide) rfl).2.1,
   ((publish_aliasing stateX4 "a" topicXa 0 5 6 "u1" "u2" rfl (by decide)
      (by decide)).2.2.2 "b" topicXb (by decide) rfl).2.2 0 subX1 rfl (by decide)⟩

/-- C6 witness: deleting `"t"` from `stateW3` succeeds, removes the topic and
marks its one subscriber's channel closed. -/
theorem deleteTopic_spec_witness :
    (DeleteTopic stateW3 "t").2 = none ∧
    alookup (DeleteTopic stateW3 "t").1.topics "t" = none ∧
    (∀ info, info ∈ ListTopics (DeleteTopic stateW3 "t").1 → info.Name ≠ "t") ∧
    (∀ cid r, (cid, r) ∈ topicW3.Subscribers →
      lget (DeleteTopic stateW3 "t").1.subHeap r =
        (lget stateW3.subHeap r).map (fun sub => { sub with chanClosed := true })) :=
  (deleteTopic_spec stateW3 "t").2 topicW3 rfl

end PlivoPubSub
